import Mathlib

/-!
Verification development for the jira2sql extraction pipeline
(`jira_sd_extract_automatic_update.py`).

The script queries a ticket server page by page (`jira_collate`), flattens
nested JSON columns (`expand_column`), renames custom-field identifiers to
display names (`rename_custom_fields`) and bulk-loads the resulting table
into a relational sink, disposing of the connection afterwards.

The embedding below models the pandas `DataFrame` column-major: a number of
rows together with a list of named columns, each column holding one JSON
value per row (well-formedness `DataFrame.WF` states every column has
exactly `nrows` entries, which corresponds to the aligned default integer
index that `pd.json_normalize` and `reset_index` produce).  Fallible pandas
operations are modelled in `Except String`.  External collaborators (the
ticket server, the SQL sink) are passed in as explicit data: the full match
list for the pager, the load outcome for the loader.
-/

/-- A JSON value as it sits in a pandas cell: the `null` constructor stands
for Python `None` / `NaN`, `obj` for a dict, `arr` for a list. -/
inductive JValue where
  | null : JValue
  | bool : Bool → JValue
  | num : Int → JValue
  | str : String → JValue
  | obj : List (String × JValue) → JValue
  | arr : List JValue → JValue
deriving Repr

/-- A tabular column: its (dotted-path) name and one cell per row. -/
abbrev DCol := String × List JValue

/-- Column-major model of a pandas `DataFrame` with the default integer
index `0..nrows-1`. -/
structure DataFrame where
  nrows : Nat
  cols : List DCol
deriving Repr

/-- Row alignment: every column holds exactly one value per row. -/
def DataFrame.WF (df : DataFrame) : Prop :=
  ∀ p ∈ df.cols, p.2.length = df.nrows

/-- `df[name]` for a uniquely-named column: the first column with that
name, if any. -/
def dfGetCol? (df : DataFrame) (name : String) : Option (List JValue) :=
  match df.cols.find? (fun p => p.1 == name) with
  | some p => some p.2
  | none => none

/-- Map a fallible function over a list, stopping at the first error — the
shape of every row loop in the script that can raise. -/
def mapExcept (f : α → Except String β) : List α → Except String (List β)
  | [] => Except.ok []
  | a :: as =>
    match f a with
    | Except.error e => Except.error e
    | Except.ok b =>
      match mapExcept f as with
      | Except.error e => Except.error e
      | Except.ok bs => Except.ok (b :: bs)

mutual
/-- Dict flattening as done by `pd.json_normalize`: nested dicts are
inlined with dotted keys; lists and scalars are kept as-is. -/
def flattenFields : List (String × JValue) → List (String × JValue)
  | [] => []
  | (k, v) :: rest => flattenEntry k v ++ flattenFields rest

/-- One entry of `pd.json_normalize`'s flattening: a dict value recurses
with the key as a dotted path segment. -/
def flattenEntry (k : String) : JValue → List (String × JValue)
  | JValue.obj fs => (flattenFields fs).map (fun p => (k ++ "." ++ p.1, p.2))
  | v => [(k, v)]
end

/-- `pd.json_normalize` on one record of a list: only dicts are accepted,
anything else makes `json_normalize` raise. -/
def flattenRecord : JValue → Except String (List (String × JValue))
  | JValue.obj fs => Except.ok (flattenFields fs)
  | _ => Except.error "json_normalize: record is not a dict"

/-- Association-list lookup defaulting to `null`: a flattened record read
through a column that some other record introduced yields `NaN`. -/
def alookupD (l : List (String × JValue)) (k : String) : JValue :=
  match l.find? (fun p => p.1 == k) with
  | some p => p.2
  | none => JValue.null

/-- Whether the `pd.json_normalize` output of `flats` has a column `f`,
i.e. some record's flattening mentions the key. -/
def keyPresent (flats : List (List (String × JValue))) (f : String) : Bool :=
  flats.any (fun l => l.any (fun p => p.1 == f))

/-- The per-cell body of `expand_column`'s row loop: a non-empty list cell
is `json_normalize`d, trimmed to `requested_fields` (KeyError when a field
is in no record), and only the last entry is kept; any other cell value
takes the `nullDict` placeholder path. -/
def expandCell (cell : JValue) (requested_fields : List String) :
    Except String (List (String × JValue)) :=
  match cell with
  | JValue.arr (e :: es) =>
    match mapExcept flattenRecord (e :: es) with
    | Except.error msg => Except.error msg
    | Except.ok flats =>
      mapExcept (fun f =>
        if keyPresent flats f then
          Except.ok (f, alookupD (flats.getLastD []) f)
        else Except.error ("KeyError: " ++ f)) requested_fields
  | _ => Except.ok (requested_fields.map (fun f => (f, JValue.null)))

/-- The row loop of `expand_column` over the cells of the source column. -/
def expandRows (vals : List JValue) (requested_fields : List String) :
    Except String (List (List (String × JValue))) :=
  mapExcept (fun cell => expandCell cell requested_fields) vals

/-- The expansion frame turned into named columns: each requested field
becomes the column `column ++ "." ++ field`, aligned by field name as the
appends with `ignore_index=True` align rows by column label. -/
def expansionCols (column : String) (requested_fields : List String)
    (expRows : List (List (String × JValue))) : List DCol :=
  requested_fields.map
    (fun f => (column ++ "." ++ f, expRows.map (fun r => alookupD r f)))

/-- `expand_column(in_df, column, requested_fields, drop)`.  Per row: a
non-empty-list cell is normalized, trimmed and reduced to its last entry;
other cells yield the all-`None` placeholder.  Reading a missing column
raises `KeyError` on the first row; a duplicated column label makes
`temp[column]` a `Series`, which is not a `list`, so every row takes the
placeholder path.  The expansion is renamed with the source column as a
path root, concatenated column-wise onto the input, and the source
column is dropped (all occurrences of the label, raising when absent)
when `drop` is set. -/
def expand_column (in_df : DataFrame) (column : String)
    (requested_fields : List String) (drop : Bool) :
    Except String DataFrame :=
  let expRowsE : Except String (List (List (String × JValue))) :=
    if in_df.nrows = 0 then Except.ok []
    else
      match in_df.cols.filter (fun p => p.1 == column) with
      | [] => Except.error ("KeyError: " ++ column)
      | [p] => expandRows p.2 requested_fields
      | _ :: _ :: _ =>
        Except.ok (List.replicate in_df.nrows
          (requested_fields.map (fun f => (f, JValue.null))))
  match expRowsE with
  | Except.error e => Except.error e
  | Except.ok expRows =>
    let expCols :=
      if in_df.nrows = 0 then []
      else expansionCols column requested_fields expRows
    let combined := in_df.cols ++ expCols
    if drop then
      if combined.any (fun p => p.1 == column) then
        Except.ok ⟨in_df.nrows, combined.filter (fun p => ! (p.1 == column))⟩
      else Except.error ("KeyError: " ++ column)
    else Except.ok ⟨in_df.nrows, combined⟩

/-- One `try: df = expand_column(...) except: print(err)` block of
`lambda_handler`: a raising expansion is caught and leaves the table as it
was. -/
def try_expand_column (df : DataFrame) (column : String)
    (requested_fields : List String) (drop : Bool) : DataFrame :=
  match expand_column df column requested_fields drop with
  | Except.ok out => out
  | Except.error _ => df

/-- The fixed page length of `jira_collate`. -/
def issues_per_query : Nat := 1000

/-- The ticket source's `jql` endpoint applied to the full ordered match
list: it serves the slice `[start, start + limit)`.  The `limit = 0` call
of `jira_collate` reads the total as `allIssues.length`. -/
def jql_issues (allIssues : List JValue) (limit start : Nat) : List JValue :=
  (allIssues.drop start).take limit

/-- `jira_collate`: reads the total with a `limit = 0` query, computes
`total_pages = num_issues // issues_per_query + 1`, requests each page at
`start = query_number * issues_per_query` and extends the result list in
request order.  Returns the requested offsets together with the collated
issues. -/
def jira_collate (allIssues : List JValue) : List Nat × List JValue :=
  let num_issues := allIssues.length
  let total_pages := num_issues / issues_per_query + 1
  let offsets := (List.range total_pages).map (fun q => q * issues_per_query)
  (offsets,
    (offsets.map (fun s => jql_issues allIssues issues_per_query s)).flatten)

/-- Does `needle` start `hay`? (`str.startswith` over character lists). -/
def startsList : List Char → List Char → Bool
  | _, [] => true
  | [], _ :: _ => false
  | c :: cs, d :: ds => c == d && startsList cs ds

/-- Python's `needle in hay` substring test. -/
def containsStr (hay needle : String) : Bool :=
  hay.data.tails.any (fun t => startsList t needle.data)

/-- The literal part of the pattern `customfield_[0-9]*`. -/
def cfLit : List Char := "customfield_".data

/-- The maximal leading digit run, i.e. what `[0-9]*` consumes. -/
def takeDigits : List Char → List Char
  | [] => []
  | c :: cs => if c.isDigit then c :: takeDigits cs else []

/-- `re.search(r'customfield_[0-9]*', s)`: the first (leftmost, greedy)
match of the pattern, if any. -/
def cfSearch : List Char → Option (List Char)
  | [] => none
  | c :: cs =>
    if startsList (c :: cs) cfLit then
      some (cfLit ++ takeDigits ((c :: cs).drop cfLit.length))
    else cfSearch cs

/-- The scan loop of `re.sub(r'customfield_[0-9]*', repl, s)`: replace
every non-overlapping match, scanning left to right.  The fuel argument
only bounds the recursion; every step consumes at least one character,
so starting the scan with the input's length never exhausts it. -/
def cfSubstFuel (repl : List Char) : Nat → List Char → List Char
  | _, [] => []
  | 0, s => s
  | Nat.succ n, c :: cs =>
    if startsList (c :: cs) cfLit then
      repl ++ cfSubstFuel repl n
        ((c :: cs).drop
          (cfLit ++ takeDigits ((c :: cs).drop cfLit.length)).length)
    else c :: cfSubstFuel repl n cs

/-- `re.sub(r'customfield_[0-9]*', repl, s)`. -/
def cfSubst (repl : List Char) (s : List Char) : List Char :=
  cfSubstFuel repl s.length s

/-- The loop body of `rename_custom_fields` for one column name: columns
containing `'fields.customfield'` have their first `customfield_[0-9]*`
match looked up (`field_list[...]`, `KeyError` when absent; a match
failure makes `.group()` raise `AttributeError`) and every match replaced
by the resolved name; other columns pass through unchanged. -/
def rename_one (field_list : List (String × String)) (col : String) :
    Except String String :=
  if containsStr col "fields.customfield" then
    match cfSearch col.data with
    | none => Except.error "AttributeError: NoneType has no group"
    | some m =>
      match field_list.find? (fun p => p.1 == String.mk m) with
      | none => Except.error ("KeyError: " ++ String.mk m)
      | some p => Except.ok (String.mk (cfSubst p.2.data col.data))
  else Except.ok col

/-- `rename_custom_fields(flattened_df, field_list)`: the new name list is
built first (raising inside that loop aborts the call), then the frame is
renamed; cell values are untouched. -/
def rename_custom_fields (df : DataFrame)
    (field_list : List (String × String)) : Except String DataFrame :=
  match mapExcept (fun p =>
      match rename_one field_list p.1 with
      | Except.error e => Except.error e
      | Except.ok n => Except.ok (n, p.2)) df.cols with
  | Except.error e => Except.error e
  | Except.ok newCols => Except.ok ⟨df.nrows, newCols⟩

/-- When does `rename_custom_fields` raise on a column name: it carries
the `'fields.customfield'` marker and its first `customfield_[0-9]*` match
is either missing (`AttributeError`) or not a key of the fetched lookup
(`KeyError`). -/
def rename_bad (field_list : List (String × String)) (col : String) : Bool :=
  containsStr col "fields.customfield" &&
    (match cfSearch col.data with
     | none => true
     | some m => (field_list.find? (fun p => p.1 == String.mk m)).isNone)

/-- Observable effects of the load step of `lambda_handler`. -/
inductive DbEvent where
  | toSql : DbEvent
  | dispose : DbEvent
deriving Repr, DecidableEq

/-- The tail of `lambda_handler`: `df.to_sql(...)` immediately followed by
`db_engine.dispose()`, with no surrounding `try`/`finally`.  The outcome
of the external sink call is passed in; a raising `to_sql` propagates and
the `dispose()` statement is never reached. -/
def load_and_dispose (toSqlResult : Except String Unit) :
    List DbEvent × Except String Unit :=
  match toSqlResult with
  | Except.ok _ => ([DbEvent.toSql, DbEvent.dispose], Except.ok ())
  | Except.error e => ([DbEvent.toSql], Except.error e)

/-! ## Helper lemmas -/

theorem mapExcept_ok_length (f : α → Except String β) :
    ∀ (l : List α) (l' : List β), mapExcept f l = Except.ok l' →
      l'.length = l.length := by
  intro l
  induction l with
  | nil =>
    intro l' h
    simp only [mapExcept, Except.ok.injEq] at h
    subst h; rfl
  | cons a as ih =>
    intro l' h
    simp only [mapExcept] at h
    cases hfa : f a with
    | error e => rw [hfa] at h; cases h
    | ok b =>
      rw [hfa] at h
      cases hrest : mapExcept f as with
      | error e => rw [hrest] at h; cases h
      | ok bs =>
        rw [hrest] at h
        simp only [Except.ok.injEq] at h
        subst h
        simp [ih bs hrest]

theorem mapExcept_ok_get (f : α → Except String β) :
    ∀ (l : List α) (l' : List β), mapExcept f l = Except.ok l' →
      ∀ (i : Nat) (a : α), l[i]? = some a →
        ∃ b, l'[i]? = some b ∧ f a = Except.ok b := by
  intro l
  induction l with
  | nil => intro l' h i a ha; simp at ha
  | cons x xs ih =>
    intro l' h i a ha
    simp only [mapExcept] at h
    cases hfa : f x with
    | error e => rw [hfa] at h; cases h
    | ok b =>
      rw [hfa] at h
      cases hrest : mapExcept f xs with
      | error e => rw [hrest] at h; cases h
      | ok bs =>
        rw [hrest] at h
        simp only [Except.ok.injEq] at h
        subst h
        cases i with
        | zero =>
          simp only [List.getElem?_cons_zero, Option.some.injEq] at ha
          subst ha
          exact ⟨b, by simp, hfa⟩
        | succ j =>
          simp only [List.getElem?_cons_succ] at ha ⊢
          exact ih bs hrest j a ha

theorem mapExcept_ok_of_all (f : α → Except String β) (g : α → β) :
    ∀ (l : List α), (∀ a ∈ l, f a = Except.ok (g a)) →
      mapExcept f l = Except.ok (l.map g) := by
  intro l
  induction l with
  | nil => intro _; rfl
  | cons a as ih =>
    intro h
    have ha := h a (List.mem_cons_self a as)
    have has := ih (fun x hx => h x (List.mem_cons_of_mem a hx))
    simp [mapExcept, ha, has]

theorem mapExcept_error_exists (f : α → Except String β) :
    ∀ (l : List α), (∃ e, mapExcept f l = Except.error e) ↔
      ∃ a ∈ l, ∃ e, f a = Except.error e := by
  intro l
  induction l with
  | nil => simp [mapExcept]
  | cons a as ih =>
    constructor
    · intro ⟨e, he⟩
      simp only [mapExcept] at he
      cases hfa : f a with
      | error e0 => exact ⟨a, List.mem_cons_self a as, e0, hfa⟩
      | ok b =>
        rw [hfa] at he
        cases hrest : mapExcept f as with
        | error e1 =>
          have ⟨x, hx, hex⟩ := ih.mp ⟨e1, hrest⟩
          exact ⟨x, List.mem_cons_of_mem a hx, hex⟩
        | ok bs => rw [hrest] at he; cases he
    · intro ⟨x, hx, e, hex⟩
      cases List.mem_cons.mp hx with
      | inl hxa =>
        subst hxa
        exact ⟨e, by simp [mapExcept, hex]⟩
      | inr hxs =>
        cases hfa : f a with
        | error e0 => exact ⟨e0, by simp [mapExcept, hfa]⟩
        | ok b =>
          have ⟨e1, he1⟩ := ih.mpr ⟨x, hxs, e, hex⟩
          exact ⟨e1, by simp [mapExcept, hfa, he1]⟩

theorem alookupD_cons (p : String × JValue) (l : List (String × JValue))
    (k : String) :
    alookupD (p :: l) k = if p.1 == k then p.2 else alookupD l k := by
  simp only [alookupD, List.find?]
  cases h : (p.1 == k) <;> simp

theorem alookupD_map_null (l : List String) (k : String) :
    alookupD (l.map (fun f => (f, JValue.null))) k = JValue.null := by
  induction l with
  | nil => rfl
  | cons a as ih =>
    rw [List.map_cons, alookupD_cons]
    by_cases h : (a == k) = true
    · simp [h]
    · simp only [Bool.not_eq_true] at h
      simp [h, ih]

theorem dot_name_ne (c f : String) : ¬ (c ++ "." ++ f = c) := by
  intro h
  have hl := congrArg String.length h
  have h1 : ("." : String).length = 1 := rfl
  simp only [String.length_append, h1] at hl
  omega

theorem dot_name_inj {c f g : String} (h : c ++ "." ++ f = c ++ "." ++ g) :
    f = g := by
  have hd := congrArg String.data h
  simp only [String.data_append] at hd
  exact String.ext (List.append_cancel_left hd)

theorem flatten_chunks (n : Nat) :
    ∀ (k : Nat) (l : List JValue), l.length ≤ n * k →
      ((List.range k).map (fun q => (l.drop (q * n)).take n)).flatten = l := by
  intro k
  induction k with
  | zero =>
    intro l hl
    rw [Nat.mul_zero] at hl
    have hnil : l = [] := List.eq_nil_of_length_eq_zero (Nat.le_zero.mp hl)
    subst hnil
    rfl
  | succ k ih =>
    intro l hl
    rw [List.range_succ_eq_map, List.map_cons, List.flatten_cons, List.map_map]
    have hfun : ((fun q => (l.drop (q * n)).take n) ∘ Nat.succ)
        = fun q => ((l.drop n).drop (q * n)).take n := by
      funext q
      simp only [Function.comp_apply]
      rw [Nat.succ_mul, Nat.add_comm, ← List.drop_drop]
    rw [hfun]
    rw [Nat.mul_succ] at hl
    have hlen : (l.drop n).length ≤ n * k := by
      rw [List.length_drop]; omega
    rw [ih (l.drop n) hlen]
    rw [Nat.zero_mul, List.drop_zero]
    exact List.take_append_drop n l

/-- The behaviour of `jira_collate` against a source holding `issues`:
offsets are `q * 1000` for `q < total // 1000 + 1`, and the collation is
the full ordered match list. -/
theorem jira_collate_spec (issues : List JValue) :
    (jira_collate issues).1
        = (List.range (issues.length / issues_per_query + 1)).map
            (fun q => q * issues_per_query) ∧
    (jira_collate issues).2 = issues := by
  refine ⟨rfl, ?_⟩
  show ((((List.range (issues.length / issues_per_query + 1)).map
      (fun q => q * issues_per_query)).map
        (fun s => jql_issues issues issues_per_query s))).flatten = issues
  rw [List.map_map]
  have hfun : ((fun s => jql_issues issues issues_per_query s)
        ∘ fun q => q * issues_per_query)
      = fun q => (issues.drop (q * issues_per_query)).take
          issues_per_query := by
    funext q
    rfl
  rw [hfun]
  apply flatten_chunks
  show issues.length ≤ 1000 * (issues.length / 1000 + 1)
  omega

/-! ## Claim theorems -/

/-- C1 (amended): `jira_collate` first obtains the total with a
`limit = 0` query, then issues `total // 1000 + 1` sequential page
requests (floor division plus one, which equals `ceil(total / 1000)`
except when 1000 divides the total, where one extra, empty, page is
requested) at offsets `q * 1000`, and the concatenation in request order
is exactly the full match list; in particular for `total = 2500` exactly
3 requests are issued at offsets 0, 1000, 2000 and the collated result
has the 2500 entries in request order. -/
theorem c1_pager_collation :
    (∀ issues : List JValue,
      (jira_collate issues).1
          = (List.range (issues.length / issues_per_query + 1)).map
              (fun q => q * issues_per_query) ∧
      (jira_collate issues).2 = issues) ∧
    (jira_collate (List.replicate 2500 JValue.null)).1 = [0, 1000, 2000] ∧
    (jira_collate (List.replicate 2500 JValue.null)).2
        = List.replicate 2500 JValue.null := by
  refine ⟨jira_collate_spec, ?_, (jira_collate_spec _).2⟩
  rw [(jira_collate_spec _).1]
  have hlen : (List.replicate 2500 JValue.null).length = 2500 :=
    List.length_replicate 2500 JValue.null
  rw [hlen]
  rfl

/-- C1 (counterexample): for `total = 2000` the code issues 3 page
requests (`2000 // 1000 + 1`), not `ceil(2000 / 1000) = 2` as the claim's
page-count formula states. -/
theorem c1_page_count_not_ceil :
    (jira_collate (List.replicate 2000 JValue.null)).1 = [0, 1000, 2000] ∧
    ¬ ((jira_collate (List.replicate 2000 JValue.null)).1.length
        = (2000 + issues_per_query - 1) / issues_per_query) := by
  have hlen : (List.replicate 2000 JValue.null).length = 2000 :=
    List.length_replicate 2000 JValue.null
  have h0 : (jira_collate (List.replicate 2000 JValue.null)).1
      = [0, 1000, 2000] := by
    rw [(jira_collate_spec _).1, hlen]
    rfl
  refine ⟨h0, ?_⟩
  rw [h0]
  have h2 : (2000 + issues_per_query - 1) / issues_per_query = 2 := rfl
  rw [h2]
  simp

/-- C5 (amended): in the load step of `lambda_handler` the connection is
disposed if and only if `to_sql` succeeded: a raising load propagates its
exception and the `dispose()` statement is never reached. -/
theorem c5_dispose_iff_success :
    ∀ (r : Except String Unit),
      (DbEvent.dispose ∈ (load_and_dispose r).1 ↔ r = Except.ok ()) ∧
      (load_and_dispose r).2 = r := by
  intro r
  cases r with
  | ok u =>
    cases u
    refine ⟨⟨fun _ => rfl, fun _ => ?_⟩, rfl⟩
    simp [load_and_dispose]
  | error e =>
    refine ⟨⟨fun hm => ?_, fun h => by cases h⟩, rfl⟩
    simp [load_and_dispose] at hm

/-- C5 (witness): the amended theorem applied to a successful load. -/
theorem c5_dispose_iff_success_inst :
    (DbEvent.dispose ∈ (load_and_dispose (Except.ok ())).1 ↔
      (Except.ok () : Except String Unit) = Except.ok ()) ∧
    (load_and_dispose (Except.ok ())).2 = Except.ok () :=
  c5_dispose_iff_success (Except.ok ())

/-- C5 (counterexample): on a raising `to_sql` the recorded effects are
`[toSql]` only — the connection is not disposed, contradicting the
claimed unconditional release. -/
theorem c5_dispose_skipped_on_error :
    load_and_dispose (Except.error "db error")
        = ([DbEvent.toSql], Except.error "db error") ∧
    ¬ (DbEvent.dispose ∈ (load_and_dispose (Except.error "db error")).1) := by
  refine ⟨rfl, fun hm => ?_⟩
  simp [load_and_dispose] at hm

/-- C6: each expansion of `lambda_handler` is wrapped in its own
`try`/`except`; when `expand_column` raises for a field, the error is
caught there and the pipeline continues with the table unchanged — the
expansion error is never fatal. -/
theorem c6_degraded_continue :
    ∀ (df : DataFrame) (c : String) (rfs : List String) (dr : Bool)
      (e : String),
      expand_column df c rfs dr = Except.error e →
      try_expand_column df c rfs dr = df := by
  intro df c rfs dr e h
  simp [try_expand_column, h]

/-- C6 (witness): a table without the SLA column passes through one
`try`-wrapped expansion unchanged. -/
theorem c6_degraded_continue_inst :
    try_expand_column ⟨1, [("fields.created", [JValue.str "2021"])]⟩
        "fields.customfield_10101.completedCycles" ["breached"] true
      = ⟨1, [("fields.created", [JValue.str "2021"])]⟩ :=
  c6_degraded_continue _ _ _ _
    ("KeyError: " ++ "fields.customfield_10101.completedCycles") (by rfl)

/-! ## Shape of a successful `expand_column` -/

theorem expansionCols_val_length (c : String) (rfs : List String)
    (expRows : List (List (String × JValue))) :
    ∀ p ∈ expansionCols c rfs expRows, p.2.length = expRows.length := by
  intro p hp
  simp only [expansionCols, List.mem_map] at hp
  obtain ⟨f, _, rfl⟩ := hp
  simp

theorem expansionCols_filter_ne (c : String) (rfs : List String)
    (expRows : List (List (String × JValue))) :
    (expansionCols c rfs expRows).filter (fun p => ! (p.1 == c))
      = expansionCols c rfs expRows := by
  apply List.filter_eq_self.mpr
  intro p hp
  simp only [expansionCols, List.mem_map] at hp
  obtain ⟨f, _, rfl⟩ := hp
  simp only [Bool.not_eq_true']
  exact beq_eq_false_iff_ne.mpr (dot_name_ne c f)

theorem any_of_filter_cons {p : DCol → Bool} {l : List DCol} {x : DCol}
    {xs : List DCol} (h : l.filter p = x :: xs) : l.any p = true := by
  have hx : x ∈ l.filter p := by rw [h]; exact List.mem_cons_self x xs
  have hm := List.mem_filter.mp hx
  exact List.any_eq_true.mpr ⟨x, hm.1, hm.2⟩

/-- Every way `expand_column` can succeed: the output keeps the input's
row count, appends a block of expansion columns each of which is
row-aligned, and either drops the source label or not. -/
theorem expand_ok_cases {df : DataFrame} {c : String} {rfs : List String}
    {dr : Bool} {out : DataFrame}
    (h : expand_column df c rfs dr = Except.ok out) :
    ∃ E : List DCol,
      (∀ p ∈ E, df.WF → p.2.length = df.nrows) ∧
      (out = ⟨df.nrows, (df.cols ++ E).filter (fun p => ! (p.1 == c))⟩
        ∨ out = ⟨df.nrows, df.cols ++ E⟩) := by
  simp only [expand_column] at h
  by_cases hn : df.nrows = 0
  · rw [if_pos hn] at h
    simp only [if_pos hn] at h
    refine ⟨[], ?_, ?_⟩
    · intro p hp; cases hp
    cases dr with
    | false => simp only [Bool.false_eq_true, if_false] at h; cases h; right; rfl
    | true =>
      simp only [if_true] at h
      by_cases hy : (df.cols ++ []).any (fun p => p.1 == c) = true
      · rw [if_pos hy] at h; cases h; left; rfl
      · rw [if_neg hy] at h; cases h
  · rw [if_neg hn] at h
    cases hfil : df.cols.filter (fun p => p.1 == c) with
    | nil => rw [hfil] at h; cases h
    | cons p0 ps =>
      cases ps with
      | nil =>
        rw [hfil] at h
        simp only at h
        cases hrows : expandRows p0.2 rfs with
        | error e => rw [hrows] at h; cases h
        | ok expRows =>
          rw [hrows] at h
          simp only [if_neg hn] at h
          have hp0 : p0 ∈ df.cols :=
            List.mem_of_mem_filter (by rw [hfil]; exact List.mem_cons_self p0 [])
          have hlen : ∀ p ∈ expansionCols c rfs expRows, df.WF →
              p.2.length = df.nrows := by
            intro p hp hwf
            rw [expansionCols_val_length c rfs expRows p hp]
            rw [mapExcept_ok_length _ _ _ hrows]
            exact hwf p0 hp0
          refine ⟨expansionCols c rfs expRows, hlen, ?_⟩
          cases dr with
          | false =>
            simp only [Bool.false_eq_true, if_false] at h; cases h; right; rfl
          | true =>
            simp only [if_true] at h
            by_cases hy : (df.cols ++ expansionCols c rfs expRows).any
                (fun p => p.1 == c) = true
            · rw [if_pos hy] at h; cases h; left; rfl
            · rw [if_neg hy] at h; cases h
      | cons p1 ps1 =>
        rw [hfil] at h
        simp only at h
        simp only [if_neg hn] at h
        set E := expansionCols c rfs
          (List.replicate df.nrows (rfs.map (fun f => (f, JValue.null))))
          with hE
        have hlen : ∀ p ∈ E, df.WF → p.2.length = df.nrows := by
          intro p hp _
          rw [hE] at hp
          rw [expansionCols_val_length _ _ _ p hp]
          exact List.length_replicate _ _
        refine ⟨E, hlen, ?_⟩
        cases dr with
        | false =>
          simp only [Bool.false_eq_true, if_false] at h; cases h; right; rfl
        | true =>
          simp only [if_true] at h
          by_cases hy : (df.cols ++ E).any (fun p => p.1 == c) = true
          · rw [hE] at hy ⊢; rw [if_pos hy] at h; cases h; left; rfl
          · rw [hE] at hy; rw [if_neg hy] at h; cases h

/-- C3: a successful `expand_column` preserves the number of rows and the
row alignment: every input row yields exactly one output row, none
dropped or duplicated. -/
theorem c3_row_count_preserved :
    ∀ (df : DataFrame) (c : String) (rfs : List String) (dr : Bool)
      (out : DataFrame),
      df.WF → expand_column df c rfs dr = Except.ok out →
      out.nrows = df.nrows ∧ out.WF := by
  intro df c rfs dr out hwf h
  obtain ⟨E, hlen, hout⟩ := expand_ok_cases h
  have hmem : ∀ p, p ∈ df.cols ++ E → p.2.length = df.nrows := by
    intro p hp
    cases List.mem_append.mp hp with
    | inl hl => exact hwf p hl
    | inr hr => exact hlen p hr hwf
  cases hout with
  | inl hdrop =>
    subst hdrop
    refine ⟨rfl, ?_⟩
    intro p hp
    exact hmem p (List.mem_of_mem_filter hp)
  | inr hkeep =>
    subst hkeep
    exact ⟨rfl, fun p hp => hmem p hp⟩

/-- C3 (witness): one row, one SLA column with two completed cycles,
expanded and dropped — the result still has exactly one row-aligned row. -/
theorem c3_row_count_preserved_inst :
    (⟨1, [("c.breached", [JValue.bool true])]⟩ : DataFrame).nrows
        = (⟨1, [("c", [JValue.arr [JValue.obj [("breached", JValue.bool false)],
            JValue.obj [("breached", JValue.bool true)]]])]⟩ :
            DataFrame).nrows ∧
    (⟨1, [("c.breached", [JValue.bool true])]⟩ : DataFrame).WF :=
  c3_row_count_preserved
    ⟨1, [("c", [JValue.arr [JValue.obj [("breached", JValue.bool false)],
        JValue.obj [("breached", JValue.bool true)]]])]⟩
    "c" ["breached"] true
    ⟨1, [("c.breached", [JValue.bool true])]⟩
    (by intro p hp; rcases List.mem_singleton.mp hp with rfl; rfl)
    (by rfl)

/-- A successful `expand_column` over a uniquely-labelled source column:
the per-row expansion succeeded and the output is the (possibly
label-dropped) input followed by the expansion block. -/
theorem expand_ok_single {df : DataFrame} {c : String} {rfs : List String}
    {dr : Bool} {vals : List JValue} {out : DataFrame}
    (hu : df.cols.filter (fun p => p.1 == c) = [(c, vals)])
    (hn : 0 < df.nrows)
    (h : expand_column df c rfs dr = Except.ok out) :
    ∃ expRows, expandRows vals rfs = Except.ok expRows ∧
      out = ⟨df.nrows,
        (if dr then df.cols.filter (fun p => ! (p.1 == c)) else df.cols)
          ++ expansionCols c rfs expRows⟩ := by
  have hne : ¬ df.nrows = 0 := by omega
  simp only [expand_column] at h
  rw [if_neg hne, hu] at h
  simp only at h
  cases hrows : expandRows vals rfs with
  | error e => rw [hrows] at h; cases h
  | ok expRows =>
    rw [hrows] at h
    simp only [if_neg hne] at h
    refine ⟨expRows, rfl, ?_⟩
    cases dr with
    | false =>
      simp only [Bool.false_eq_true, if_false] at h
      cases h
      rfl
    | true =>
      simp only [if_true] at h
      have hany : (df.cols ++ expansionCols c rfs expRows).any
          (fun p => p.1 == c) = true := by
        apply List.any_eq_true.mpr
        refine ⟨(c, vals), List.mem_append.mpr (Or.inl ?_), ?_⟩
        · exact List.mem_of_mem_filter
            (by rw [hu]; exact List.mem_cons_self _ _)
        · exact beq_self_eq_true c
      rw [if_pos hany] at h
      cases h
      simp only [if_pos]
      rw [List.filter_append, expansionCols_filter_ne]

/-- Converse construction: a uniquely-labelled source column whose rows
all expand successfully makes `expand_column` succeed with the expansion
block appended. -/
theorem expand_single_ok {df : DataFrame} {c : String} {rfs : List String}
    (dr : Bool) {vals : List JValue}
    {expRows : List (List (String × JValue))}
    (hu : df.cols.filter (fun p => p.1 == c) = [(c, vals)])
    (hn : 0 < df.nrows)
    (hrows : expandRows vals rfs = Except.ok expRows) :
    expand_column df c rfs dr = Except.ok ⟨df.nrows,
      (if dr then df.cols.filter (fun p => ! (p.1 == c)) else df.cols)
        ++ expansionCols c rfs expRows⟩ := by
  have hne : ¬ df.nrows = 0 := by omega
  simp only [expand_column]
  rw [if_neg hne, hu]
  simp only
  rw [hrows]
  simp only [if_neg hne]
  cases dr with
  | false => simp
  | true =>
    have hany : (df.cols ++ expansionCols c rfs expRows).any
        (fun p => p.1 == c) = true := by
      apply List.any_eq_true.mpr
      refine ⟨(c, vals), List.mem_append.mpr (Or.inl ?_), ?_⟩
      · exact List.mem_of_mem_filter
          (by rw [hu]; exact List.mem_cons_self _ _)
      · exact beq_self_eq_true c
    simp only [if_true]
    rw [if_pos hany]
    rw [List.filter_append, expansionCols_filter_ne]

/-- C10: when the named nested-field column is entirely absent from a
non-empty table, `expand_column` raises `KeyError` (surfacing to the
caller's degraded-continue handling) instead of emitting null
sub-columns; the all-null fallback is only per-cell, within an existing
column. -/
theorem c10_absent_column_raises :
    ∀ (df : DataFrame) (c : String) (rfs : List String) (dr : Bool),
      df.cols.filter (fun p => p.1 == c) = [] → 0 < df.nrows →
      expand_column df c rfs dr = Except.error ("KeyError: " ++ c) := by
  intro df c rfs dr hf hn
  have hne : ¬ df.nrows = 0 := by omega
  simp only [expand_column]
  rw [if_neg hne, hf]

/-- C10 (witness): expanding a column that the two-row table does not
have raises `KeyError` rather than producing null sub-columns. -/
theorem c10_absent_column_raises_inst :
    expand_column ⟨2, [("key", [JValue.str "a", JValue.str "b"])]⟩
        "fields.customfield_13031" ["value"] true
      = Except.error ("KeyError: " ++ "fields.customfield_13031") :=
  c10_absent_column_raises _ _ _ _ (by rfl) (by decide)

/-- In a row produced by the trimmed projection loop, the value at a
requested field is the keyed projection value. -/
theorem alookupD_mapExcept_keyed {g : String → JValue} {P : String → Bool} :
    ∀ (rfs : List String) (row : List (String × JValue)),
      mapExcept (fun f => if P f then Except.ok (f, g f)
        else Except.error ("KeyError: " ++ f)) rfs = Except.ok row →
      ∀ f ∈ rfs, alookupD row f = g f := by
  intro rfs
  induction rfs with
  | nil => intro row _ f hf; cases hf
  | cons a as ih =>
    intro row h f hf
    simp only [mapExcept] at h
    by_cases hPa : P a = true
    · rw [if_pos hPa] at h
      cases hrest : mapExcept (fun f => if P f then Except.ok (f, g f)
          else Except.error ("KeyError: " ++ f)) as with
      | error e => rw [hrest] at h; cases h
      | ok bs =>
        rw [hrest] at h
        simp only [Except.ok.injEq] at h
        subst h
        rw [alookupD_cons]
        by_cases haf : (a == f) = true
        · rw [if_pos haf]
          have : a = f := by simpa using haf
          rw [this]
        · rw [if_neg haf]
          have hfs : f ∈ as := by
            cases List.mem_cons.mp hf with
            | inl h0 => exact absurd (by simp [h0] : (a == f) = true) haf
            | inr h0 => exact h0
          exact ih bs hrest f hfs
    · rw [if_neg hPa] at h; cases h

/-- `find?` over the expansion block: the first column named
`c ++ "." ++ f` carries the per-row projection at `f`. -/
theorem find?_expansionCols {c f : String} {rfs : List String}
    {expRows : List (List (String × JValue))} (hf : f ∈ rfs) :
    (expansionCols c rfs expRows).find? (fun p => p.1 == c ++ "." ++ f)
      = some (c ++ "." ++ f, expRows.map (fun r => alookupD r f)) := by
  induction rfs with
  | nil => cases hf
  | cons a as ih =>
    simp only [expansionCols, List.map_cons, List.find?]
    by_cases haf : a = f
    · subst haf
      simp
    · have hne : (c ++ "." ++ a == c ++ "." ++ f) = false :=
        beq_eq_false_iff_ne.mpr (fun hEq => haf (dot_name_inj hEq))
      rw [hne]
      have hfs : f ∈ as := by
        cases List.mem_cons.mp hf with
        | inl h0 => exact absurd h0.symm haf
        | inr h0 => exact h0
      exact ih hfs

theorem expansionCols_filter_eq_nil {c B : String} {rfs : List String}
    {expRows : List (List (String × JValue))}
    (h : ∀ f ∈ rfs, ¬ (c ++ "." ++ f = B)) :
    (expansionCols c rfs expRows).filter (fun p => p.1 == B) = [] := by
  apply List.filter_eq_nil_iff.mpr
  intro p hp
  simp only [expansionCols, List.mem_map] at hp
  obtain ⟨f, hf, rfl⟩ := hp
  simp [h f hf]

theorem expansionCols_filter_not_of {c B : String} {rfs : List String}
    {expRows : List (List (String × JValue))}
    (h : ∀ f ∈ rfs, ¬ (c ++ "." ++ f = B)) :
    (expansionCols c rfs expRows).filter (fun p => ! (p.1 == B))
      = expansionCols c rfs expRows := by
  apply List.filter_eq_self.mpr
  intro p hp
  simp only [expansionCols, List.mem_map] at hp
  obtain ⟨f, hf, rfl⟩ := hp
  simp only [Bool.not_eq_true']
  exact beq_eq_false_iff_ne.mpr (h f hf)

/-- C2 (amended): for a row whose cell in the (uniquely-labelled)
expanded column is a non-empty sequence of objects, a successful
`expand_column` produces exactly the projection of the last element onto
each requested field — null for a field absent from that last element —
provided the call succeeded, which requires every requested field to
occur in at least one element of the sequence; a field absent from all
elements makes the call raise instead (see the counterexample). -/
theorem c2_last_entry_projection :
    ∀ (df : DataFrame) (c : String) (rfs : List String) (dr : Bool)
      (out : DataFrame) (vals : List JValue) (i : Nat)
      (elems : List JValue) (f : String),
      df.cols.filter (fun p => p.1 == c) = [(c, vals)] →
      0 < df.nrows →
      expand_column df c rfs dr = Except.ok out →
      vals[i]? = some (JValue.arr elems) →
      elems ≠ [] →
      f ∈ rfs →
      (∀ p ∈ df.cols, ¬ p.1 = c ++ "." ++ f) →
      ∃ flats colVals,
        mapExcept flattenRecord elems = Except.ok flats ∧
        dfGetCol? out (c ++ "." ++ f) = some colVals ∧
        colVals[i]? = some (alookupD (flats.getLastD []) f) := by
  intro df c rfs dr out vals i elems f hu hn h hi hne hf hnc
  obtain ⟨expRows, hrows, hout⟩ := expand_ok_single hu hn h
  obtain ⟨row, hrowi, hcell⟩ := mapExcept_ok_get _ _ _ hrows i _ hi
  cases elems with
  | nil => exact absurd rfl hne
  | cons e es =>
    simp only [expandCell] at hcell
    cases hfl : mapExcept flattenRecord (e :: es) with
    | error msg => rw [hfl] at hcell; cases hcell
    | ok flats =>
      rw [hfl] at hcell
      refine ⟨flats, expRows.map (fun r => alookupD r f), rfl, ?_, ?_⟩
      · subst hout
        show (match ((if dr then df.cols.filter (fun p => ! (p.1 == c))
            else df.cols) ++ expansionCols c rfs expRows).find?
              (fun p => p.1 == c ++ "." ++ f) with
          | some p => some p.2
          | none => none) = some (expRows.map (fun r => alookupD r f))
        have hbase : (if dr then df.cols.filter (fun p => ! (p.1 == c))
            else df.cols).find? (fun p => p.1 == c ++ "." ++ f) = none := by
          apply List.find?_eq_none.mpr
          intro p hp
          have hpd : p ∈ df.cols := by
            by_cases hdr : dr = true
            · rw [if_pos hdr] at hp; exact List.mem_of_mem_filter hp
            · rw [if_neg hdr] at hp; exact hp
          simpa using hnc p hpd
        rw [List.find?_append, hbase, Option.none_or,
          find?_expansionCols hf]
      · rw [List.getElem?_map, hrowi, Option.map_some']
        have hval : alookupD row f = alookupD (flats.getLastD []) f :=
          alookupD_mapExcept_keyed rfs row hcell f hf
        rw [hval]

/-- C2 (counterexample): a row whose cell is the non-empty sequence
`[{}]` and `fields_to_keep = ["a"]` — the claim promises a `None`
projection for the missing field regardless, but `expanded[["a"]]`
raises `KeyError` because no element of the sequence has the field. -/
theorem c2_missing_field_raises :
    expand_column ⟨1, [("c", [JValue.arr [JValue.obj []]])]⟩ "c" ["a"] true
      = Except.error ("KeyError: " ++ "a") := by
  rfl

/-- C2 (witness): a two-entry cycle list where the last entry lacks the
requested field — the projection takes the last element and yields null
for its missing field. -/
theorem c2_last_entry_projection_inst :
    ∃ flats colVals,
      mapExcept flattenRecord [JValue.obj [("a", JValue.num 1)],
          JValue.obj [("b", JValue.num 3)]] = Except.ok flats ∧
      dfGetCol? ⟨1, [("c" ++ "." ++ "a", [JValue.null])]⟩ ("c" ++ "." ++ "a")
          = some colVals ∧
      colVals[0]? = some (alookupD (flats.getLastD []) "a") :=
  c2_last_entry_projection
    ⟨1, [("c", [JValue.arr [JValue.obj [("a", JValue.num 1)],
        JValue.obj [("b", JValue.num 3)]]])]⟩
    "c" ["a"] true
    ⟨1, [("c" ++ "." ++ "a", [JValue.null])]⟩
    [JValue.arr [JValue.obj [("a", JValue.num 1)],
        JValue.obj [("b", JValue.num 3)]]]
    0
    [JValue.obj [("a", JValue.num 1)], JValue.obj [("b", JValue.num 3)]]
    "a"
    (by rfl) (by decide) (by rfl) (by rfl) (by simp) (by simp)
    (by intro p hp; simp only [List.mem_singleton] at hp; subst hp; decide)

/-- The first filtered element is the first found element. -/
theorem find?_of_filter_cons {l : List DCol} {p : DCol → Bool} {x : DCol}
    {xs : List DCol} (h : l.filter p = x :: xs) : l.find? p = some x := by
  induction l with
  | nil => cases h
  | cons a as ih =>
    by_cases hpa : p a = true
    · rw [List.filter_cons, if_pos hpa] at h
      simp only [List.cons.injEq] at h
      rw [List.find?_cons_of_pos _ hpa, h.1]
    · rw [List.filter_cons, if_neg hpa] at h
      rw [List.find?_cons_of_neg _ (by simpa using hpa)]
      exact ih h

/-- C9: on a successful expansion of a uniquely-labelled non-empty
column, the new sub-columns are exactly `column ++ "." ++ field` for the
requested fields; every pre-existing column other than the expanded one
is kept with its name and values; and the source column is removed
exactly when `drop` is set, otherwise retained with its values. -/
theorem c9_frame_columns :
    ∀ (df : DataFrame) (c : String) (rfs : List String) (dr : Bool)
      (out : DataFrame) (vals : List JValue),
      df.cols.filter (fun p => p.1 == c) = [(c, vals)] →
      0 < df.nrows →
      expand_column df c rfs dr = Except.ok out →
      ∃ expRows,
        out.cols = (if dr then df.cols.filter (fun p => ! (p.1 == c))
            else df.cols) ++ expansionCols c rfs expRows ∧
        (∀ p ∈ expansionCols c rfs expRows,
          ∃ f, f ∈ rfs ∧ p.1 = c ++ "." ++ f) ∧
        (∀ p ∈ df.cols, ¬ p.1 = c → p ∈ out.cols) ∧
        (dr = true → ∀ p ∈ out.cols, ¬ p.1 = c) ∧
        (dr = false → dfGetCol? out c = some vals) := by
  intro df c rfs dr out vals hu hn h
  obtain ⟨expRows, hrows, hout⟩ := expand_ok_single hu hn h
  subst hout
  refine ⟨expRows, rfl, ?_, ?_, ?_, ?_⟩
  · intro p hp
    simp only [expansionCols, List.mem_map] at hp
    obtain ⟨f, hf, rfl⟩ := hp
    exact ⟨f, hf, rfl⟩
  · intro p hp hpc
    apply List.mem_append.mpr
    left
    by_cases hdr : dr = true
    · rw [if_pos hdr]
      refine List.mem_filter.mpr ⟨hp, ?_⟩
      simp only [Bool.not_eq_true']
      exact beq_eq_false_iff_ne.mpr hpc
    · rw [if_neg hdr]
      exact hp
  · intro hdr p hp
    rw [if_pos hdr] at hp
    cases List.mem_append.mp hp with
    | inl hl =>
      have := (List.mem_filter.mp hl).2
      simp only [Bool.not_eq_true'] at this
      exact beq_eq_false_iff_ne.mp this
    | inr hr =>
      simp only [expansionCols, List.mem_map] at hr
      obtain ⟨f, _, rfl⟩ := hr
      exact dot_name_ne c f
  · intro hdr
    subst hdr
    simp only [Bool.false_eq_true, if_false]
    show (match (df.cols ++ expansionCols c rfs expRows).find?
        (fun p => p.1 == c) with
      | some p => some p.2
      | none => none) = some vals
    rw [List.find?_append, find?_of_filter_cons hu]
    rfl

/-- C9 (witness): one row, a `key` column plus the nested column; with
`drop` set the source column disappears and the single new sub-column is
`"c" ++ "." ++ "b"`. -/
theorem c9_frame_columns_inst :
    ∃ expRows,
      (⟨1, [("key", [JValue.str "t"]),
          ("c" ++ "." ++ "b", [JValue.num 2])]⟩ : DataFrame).cols
        = (if true then ([("key", [JValue.str "t"]),
              ("c", [JValue.arr [JValue.obj [("b", JValue.num 2)]]])] :
                List DCol).filter (fun p => ! (p.1 == "c"))
            else [("key", [JValue.str "t"]),
              ("c", [JValue.arr [JValue.obj [("b", JValue.num 2)]]])])
          ++ expansionCols "c" ["b"] expRows ∧
      (∀ p ∈ expansionCols "c" ["b"] expRows,
        ∃ f, f ∈ ["b"] ∧ p.1 = "c" ++ "." ++ f) ∧
      (∀ p ∈ ([("key", [JValue.str "t"]),
          ("c", [JValue.arr [JValue.obj [("b", JValue.num 2)]]])] :
            List DCol), ¬ p.1 = "c" →
        p ∈ (⟨1, [("key", [JValue.str "t"]),
            ("c" ++ "." ++ "b", [JValue.num 2])]⟩ : DataFrame).cols) ∧
      (true = true → ∀ p ∈ (⟨1, [("key", [JValue.str "t"]),
          ("c" ++ "." ++ "b", [JValue.num 2])]⟩ : DataFrame).cols,
        ¬ p.1 = "c") ∧
      (true = false → dfGetCol? ⟨1, [("key", [JValue.str "t"]),
          ("c" ++ "." ++ "b", [JValue.num 2])]⟩ "c"
        = some [JValue.arr [JValue.obj [("b", JValue.num 2)]]]) :=
  c9_frame_columns
    ⟨1, [("key", [JValue.str "t"]),
      ("c", [JValue.arr [JValue.obj [("b", JValue.num 2)]]])]⟩
    "c" ["b"] true
    ⟨1, [("key", [JValue.str "t"]), ("c" ++ "." ++ "b", [JValue.num 2])]⟩
    [JValue.arr [JValue.obj [("b", JValue.num 2)]]]
    (by rfl) (by decide) (by rfl)

theorem filter_and_comm (p q : DCol → Bool) (l : List DCol) :
    (l.filter p).filter q = (l.filter q).filter p := by
  rw [List.filter_filter, List.filter_filter]
  apply List.filter_congr
  intro x _
  exact Bool.and_comm (q x) (p x)

theorem filter_eq_of_filter_not {A B : String} (hBA : ¬ B = A)
    (l : List DCol) :
    (l.filter (fun p => ! (p.1 == A))).filter (fun p => p.1 == B)
      = l.filter (fun p => p.1 == B) := by
  rw [List.filter_filter]
  apply List.filter_congr
  intro x _
  by_cases hx : x.1 = B
  · have h1 : (x.1 == B) = true := by simp [hx]
    have h2 : (x.1 == A) = false :=
      beq_eq_false_iff_ne.mpr (by rw [hx]; exact hBA)
    rw [h1, h2]
    rfl
  · have h1 : (x.1 == B) = false := beq_eq_false_iff_ne.mpr hx
    rw [h1]
    rfl

/-- C8 (amended): expanding two distinct, uniquely-labelled nested-field
columns of the same non-empty table commutes up to column order,
provided neither expansion's generated column names collide with the
other source column; the collision case genuinely does not commute (see
the counterexample). -/
theorem c8_expand_commutes :
    ∀ (df : DataFrame) (A B : String) (rfsA rfsB : List String)
      (drA drB : Bool) (valsA valsB : List JValue)
      (out1 out12 out2 out21 : DataFrame),
      0 < df.nrows →
      df.cols.filter (fun p => p.1 == A) = [(A, valsA)] →
      df.cols.filter (fun p => p.1 == B) = [(B, valsB)] →
      ¬ A = B →
      (∀ f ∈ rfsA, ¬ (A ++ "." ++ f = B)) →
      (∀ f ∈ rfsB, ¬ (B ++ "." ++ f = A)) →
      expand_column df A rfsA drA = Except.ok out1 →
      expand_column out1 B rfsB drB = Except.ok out12 →
      expand_column df B rfsB drB = Except.ok out2 →
      expand_column out2 A rfsA drA = Except.ok out21 →
      out12.nrows = out21.nrows ∧ List.Perm out12.cols out21.cols := by
  intro df A B rfsA rfsB drA drB valsA valsB out1 out12 out2 out21
    hn huA huB hAB hColA hColB h1 h12 h2 h21
  obtain ⟨rowsA, hrowsA, hout1⟩ := expand_ok_single huA hn h1
  obtain ⟨rowsB, hrowsB, hout2⟩ := expand_ok_single huB hn h2
  subst hout1
  subst hout2
  have hu1B : ((if drA then df.cols.filter (fun p => ! (p.1 == A))
      else df.cols) ++ expansionCols A rfsA rowsA).filter
        (fun p => p.1 == B) = [(B, valsB)] := by
    rw [List.filter_append, expansionCols_filter_eq_nil hColA,
      List.append_nil]
    by_cases hdr : drA = true
    · rw [if_pos hdr, filter_eq_of_filter_not (fun hBA => hAB hBA.symm)]
      exact huB
    · rw [if_neg hdr]; exact huB
  obtain ⟨rowsB', hrowsB', hout12⟩ :=
    @expand_ok_single ⟨df.nrows,
      (if drA then df.cols.filter (fun p => ! (p.1 == A)) else df.cols)
        ++ expansionCols A rfsA rowsA⟩ B rfsB drB valsB out12 hu1B hn h12
  have hBB : rowsB' = rowsB := Except.ok.inj (hrowsB'.symm.trans hrowsB)
  rw [hBB] at hout12
  have hu2A : ((if drB then df.cols.filter (fun p => ! (p.1 == B))
      else df.cols) ++ expansionCols B rfsB rowsB).filter
        (fun p => p.1 == A) = [(A, valsA)] := by
    rw [List.filter_append, expansionCols_filter_eq_nil hColB,
      List.append_nil]
    by_cases hdr : drB = true
    · rw [if_pos hdr, filter_eq_of_filter_not hAB]
      exact huA
    · rw [if_neg hdr]; exact huA
  obtain ⟨rowsA', hrowsA', hout21⟩ :=
    @expand_ok_single ⟨df.nrows,
      (if drB then df.cols.filter (fun p => ! (p.1 == B)) else df.cols)
        ++ expansionCols B rfsB rowsB⟩ A rfsA drA valsA out21 hu2A hn h21
  have hAA : rowsA' = rowsA := Except.ok.inj (hrowsA'.symm.trans hrowsA)
  rw [hAA] at hout21
  subst hout12
  subst hout21
  refine ⟨rfl, ?_⟩
  show List.Perm
    ((if drB then (((if drA then df.cols.filter (fun p => ! (p.1 == A))
        else df.cols) ++ expansionCols A rfsA rowsA).filter
          (fun p => ! (p.1 == B)))
      else ((if drA then df.cols.filter (fun p => ! (p.1 == A))
        else df.cols) ++ expansionCols A rfsA rowsA))
      ++ expansionCols B rfsB rowsB)
    ((if drA then (((if drB then df.cols.filter (fun p => ! (p.1 == B))
        else df.cols) ++ expansionCols B rfsB rowsB).filter
          (fun p => ! (p.1 == A)))
      else ((if drB then df.cols.filter (fun p => ! (p.1 == B))
        else df.cols) ++ expansionCols B rfsB rowsB))
      ++ expansionCols A rfsA rowsA)
  by_cases hdA : drA = true <;> by_cases hdB : drB = true
  · simp only [if_pos hdA, if_pos hdB]
    rw [List.filter_append, expansionCols_filter_not_of hColA,
      List.filter_append, expansionCols_filter_not_of hColB,
      filter_and_comm]
    rw [List.append_assoc, List.append_assoc]
    exact List.Perm.append_left _ List.perm_append_comm
  · simp only [if_pos hdA, if_neg hdB]
    rw [List.filter_append, expansionCols_filter_not_of hColB]
    rw [List.append_assoc, List.append_assoc]
    exact List.Perm.append_left _ List.perm_append_comm
  · simp only [if_neg hdA, if_pos hdB]
    rw [List.filter_append, expansionCols_filter_not_of hColA]
    rw [List.append_assoc, List.append_assoc]
    exact List.Perm.append_left _ List.perm_append_comm
  · simp only [if_neg hdA, if_neg hdB]
    rw [List.append_assoc, List.append_assoc]
    exact List.Perm.append_left _ List.perm_append_comm

/-- C8 (witness): two distinct SLA-style columns expanded in either
order over a one-row table give the same columns up to order. -/
theorem c8_expand_commutes_inst :
    (⟨1, [("A" ++ "." ++ "x", [JValue.num 1]),
        ("B" ++ "." ++ "y", [JValue.num 2])]⟩ : DataFrame).nrows
      = (⟨1, [("B" ++ "." ++ "y", [JValue.num 2]),
          ("A" ++ "." ++ "x", [JValue.num 1])]⟩ : DataFrame).nrows ∧
    List.Perm
      (⟨1, [("A" ++ "." ++ "x", [JValue.num 1]),
          ("B" ++ "." ++ "y", [JValue.num 2])]⟩ : DataFrame).cols
      (⟨1, [("B" ++ "." ++ "y", [JValue.num 2]),
          ("A" ++ "." ++ "x", [JValue.num 1])]⟩ : DataFrame).cols :=
  c8_expand_commutes
    ⟨1, [("A", [JValue.arr [JValue.obj [("x", JValue.num 1)]]]),
        ("B", [JValue.arr [JValue.obj [("y", JValue.num 2)]]])]⟩
    "A" "B" ["x"] ["y"] true true
    [JValue.arr [JValue.obj [("x", JValue.num 1)]]]
    [JValue.arr [JValue.obj [("y", JValue.num 2)]]]
    ⟨1, [("B", [JValue.arr [JValue.obj [("y", JValue.num 2)]]]),
        ("A" ++ "." ++ "x", [JValue.num 1])]⟩
    ⟨1, [("A" ++ "." ++ "x", [JValue.num 1]),
        ("B" ++ "." ++ "y", [JValue.num 2])]⟩
    ⟨1, [("A", [JValue.arr [JValue.obj [("x", JValue.num 1)]]]),
        ("B" ++ "." ++ "y", [JValue.num 2])]⟩
    ⟨1, [("B" ++ "." ++ "y", [JValue.num 2]),
        ("A" ++ "." ++ "x", [JValue.num 1])]⟩
    (by decide) (by rfl) (by rfl) (by decide) (by decide) (by decide)
    (by rfl) (by rfl) (by rfl) (by rfl)

/-- C8 (counterexample): with columns `"a"` and `"a.f"` both present,
expanding `"a"` (fields `["f"]`) then `"a.f"` (fields `["g"]`) yields a
single column, while the opposite order yields two columns with
different values: the generated column `"a.f"` collides with the second
source column (a duplicated label reads as a `Series`, and the drop
removes both), so the claimed unconditional commutativity fails. -/
theorem c8_collision_not_commutative :
    expand_column ⟨1, [("a", [JValue.arr [JValue.obj [("f", JValue.num 7)]]]),
        ("a.f", [JValue.arr [JValue.obj [("g", JValue.num 1)]]])]⟩
        "a" ["f"] true
      = Except.ok ⟨1, [("a.f", [JValue.arr [JValue.obj [("g", JValue.num 1)]]]),
          ("a.f", [JValue.num 7])]⟩ ∧
    expand_column ⟨1, [("a.f", [JValue.arr [JValue.obj [("g", JValue.num 1)]]]),
        ("a.f", [JValue.num 7])]⟩ "a.f" ["g"] true
      = Except.ok ⟨1, [("a.f.g", [JValue.null])]⟩ ∧
    expand_column ⟨1, [("a", [JValue.arr [JValue.obj [("f", JValue.num 7)]]]),
        ("a.f", [JValue.arr [JValue.obj [("g", JValue.num 1)]]])]⟩
        "a.f" ["g"] true
      = Except.ok ⟨1, [("a", [JValue.arr [JValue.obj [("f", JValue.num 7)]]]),
          ("a.f.g", [JValue.num 1])]⟩ ∧
    expand_column ⟨1, [("a", [JValue.arr [JValue.obj [("f", JValue.num 7)]]]),
        ("a.f.g", [JValue.num 1])]⟩ "a" ["f"] true
      = Except.ok ⟨1, [("a.f.g", [JValue.num 1]), ("a.f", [JValue.num 7])]⟩ ∧
    ¬ List.Perm ([("a.f.g", [JValue.null])] : List DCol)
        [("a.f.g", [JValue.num 1]), ("a.f", [JValue.num 7])] := by
  refine ⟨rfl, rfl, rfl, rfl, fun hperm => ?_⟩
  have hlen := hperm.length_eq
  simp at hlen

/-- `rename_one` raises exactly when `rename_bad` flags the column. -/
theorem rename_one_error_iff (field_list : List (String × String))
    (col : String) :
    (∃ e, rename_one field_list col = Except.error e) ↔
      rename_bad field_list col = true := by
  by_cases hc : containsStr col "fields.customfield" = true
  · cases hs : cfSearch col.data with
    | none => simp [rename_one, rename_bad, hs, hc]
    | some m =>
      cases hf : field_list.find? (fun p => p.1 == String.mk m) with
      | none => simp [rename_one, rename_bad, hs, hc, hf]
      | some p => simp [rename_one, rename_bad, hs, hc, hf]
  · simp only [rename_one, rename_bad, if_neg hc]
    constructor
    · intro ⟨e, he⟩; cases he
    · intro hbad
      rw [Bool.not_eq_true] at hc
      rw [hc, Bool.false_and] at hbad
      cases hbad

/-- The column loop body of `rename_custom_fields` raises exactly when
`rename_one` does. -/
theorem rename_step_error_iff (field_list : List (String × String))
    (p : DCol) :
    (∃ e, (match rename_one field_list p.1 with
        | Except.error e => Except.error e
        | Except.ok n => (Except.ok (n, p.2) : Except String DCol))
      = Except.error e) ↔
      (∃ e, rename_one field_list p.1 = Except.error e) := by
  cases h : rename_one field_list p.1 with
  | error e => simp [h]
  | ok n => simp [h]

/-- C7 (amended): `rename_custom_fields` raises if and only if some
column name carries the `'fields.customfield'` marker and its first
`customfield_[0-9]*` match is either absent (`.group()` on a failed
search raises `AttributeError`) or missing from the fetched lookup
(`KeyError`).  An unresolvable identifier that is not the first match of
its column, or that lacks the `'fields.customfield'` marker, is silently
skipped (see the counterexample). -/
theorem c7_raise_characterization :
    ∀ (df : DataFrame) (field_list : List (String × String)),
      (∃ e, rename_custom_fields df field_list = Except.error e) ↔
      (∃ p ∈ df.cols, rename_bad field_list p.1 = true) := by
  intro df fl
  have hmap : (∃ e, rename_custom_fields df fl = Except.error e) ↔
      (∃ e, mapExcept (fun p =>
          match rename_one fl p.1 with
          | Except.error e => Except.error e
          | Except.ok n => Except.ok (n, p.2)) df.cols
        = Except.error e) := by
    simp only [rename_custom_fields]
    cases hm : mapExcept (fun p =>
        match rename_one fl p.1 with
        | Except.error e => Except.error e
        | Except.ok n => Except.ok (n, p.2)) df.cols with
    | error e => simp [hm]
    | ok newCols => simp [hm]
  rw [hmap, mapExcept_error_exists]
  constructor
  · intro ⟨p, hp, e, he⟩
    exact ⟨p, hp, (rename_one_error_iff fl p.1).mp
      ((rename_step_error_iff fl p).mp ⟨e, he⟩)⟩
  · intro ⟨p, hp, hbad⟩
    obtain ⟨e, he⟩ := (rename_step_error_iff fl p).mpr
      ((rename_one_error_iff fl p.1).mpr hbad)
    exact ⟨p, hp, e, he⟩

/-- C7 (witness): a column whose only identifier is absent from an empty
lookup makes the resolver raise. -/
theorem c7_raise_characterization_inst :
    ∃ e, rename_custom_fields
        ⟨1, [("fields.customfield_99.x", [JValue.null])]⟩ []
      = Except.error e :=
  (c7_raise_characterization
      ⟨1, [("fields.customfield_99.x", [JValue.null])]⟩ []).mpr
    ⟨("fields.customfield_99.x", [JValue.null]), by simp, by rfl⟩

/-- C7 (counterexample): the column
`"fields.customfield_1.customfield_2"` contains the identifier token
`customfield_2`, which has no entry in the lookup, yet
`rename_custom_fields` does not raise: only the first match is looked
up, and `re.sub` rewrites both identifiers to that first resolution,
producing `"fields.A.A"`. -/
theorem c7_unresolved_id_no_raise :
    containsStr "fields.customfield_1.customfield_2" "customfield_2"
        = true ∧
    (([("customfield_1", "A")] : List (String × String)).find?
        (fun p => p.1 == "customfield_2")) = none ∧
    rename_custom_fields ⟨0, [("fields.customfield_1.customfield_2", [])]⟩
        [("customfield_1", "A")]
      = Except.ok ⟨0, [("fields.A.A", [])]⟩ :=
  ⟨rfl, rfl, rfl⟩

/-- C4: for every row whose cell in the (uniquely-labelled) expanded
column is empty, absent (`None`/`NaN`), or not a sequence — in any
table, including one mixing such cells with real cycle lists — the row
loop takes the all-`None` placeholder path rather than raising on that
row, and in a successful call each new sub-column holds `null` at that
row. -/
theorem c4_null_fallback :
    ∀ (df : DataFrame) (c : String) (rfs : List String) (dr : Bool)
      (out : DataFrame) (vals : List JValue) (i : Nat) (v : JValue)
      (f : String),
      df.cols.filter (fun p => p.1 == c) = [(c, vals)] →
      0 < df.nrows →
      expand_column df c rfs dr = Except.ok out →
      vals[i]? = some v →
      (∀ e es, v = JValue.arr (e :: es) → False) →
      f ∈ rfs →
      (∀ p ∈ df.cols, ¬ p.1 = c ++ "." ++ f) →
      expandCell v rfs = Except.ok (rfs.map (fun g => (g, JValue.null))) ∧
      ∃ colVals, dfGetCol? out (c ++ "." ++ f) = some colVals ∧
        colVals[i]? = some JValue.null := by
  intro df c rfs dr out vals i v f hu hn h hi hv hf hnc
  have hcellv : expandCell v rfs
      = Except.ok (rfs.map (fun g => (g, JValue.null))) := by
    cases v with
    | arr elems =>
      cases elems with
      | nil => rfl
      | cons e es => exact (hv e es rfl).elim
    | null => rfl
    | bool b => rfl
    | num n => rfl
    | str s => rfl
    | obj fs => rfl
  refine ⟨hcellv, ?_⟩
  obtain ⟨expRows, hrows, hout⟩ := expand_ok_single hu hn h
  obtain ⟨row, hrowi, hcell⟩ := mapExcept_ok_get _ _ _ hrows i v hi
  have hrownull : row = rfs.map (fun g => (g, JValue.null)) :=
    Except.ok.inj (hcell.symm.trans hcellv)
  refine ⟨expRows.map (fun r => alookupD r f), ?_, ?_⟩
  · subst hout
    show (match ((if dr then df.cols.filter (fun p => ! (p.1 == c))
        else df.cols) ++ expansionCols c rfs expRows).find?
          (fun p => p.1 == c ++ "." ++ f) with
      | some p => some p.2
      | none => none) = some (expRows.map (fun r => alookupD r f))
    have hbase : (if dr then df.cols.filter (fun p => ! (p.1 == c))
        else df.cols).find? (fun p => p.1 == c ++ "." ++ f) = none := by
      apply List.find?_eq_none.mpr
      intro p hp
      have hpd : p ∈ df.cols := by
        by_cases hdr : dr = true
        · rw [if_pos hdr] at hp; exact List.mem_of_mem_filter hp
        · rw [if_neg hdr] at hp; exact hp
      simpa using hnc p hpd
    rw [List.find?_append, hbase, Option.none_or, find?_expansionCols hf]
  · rw [List.getElem?_map, hrowi, Option.map_some', hrownull,
      alookupD_map_null]

/-- C4 (witness): the spec's three-ticket scenario — tickets 1 and 3
hold two completed cycles, ticket 2 an empty list; the expansion
succeeds on the whole mixed table and row 2's sub-column is `null`. -/
theorem c4_null_fallback_inst :
    expandCell (JValue.arr []) ["breached"]
        = Except.ok (["breached"].map (fun g => (g, JValue.null))) ∧
    ∃ colVals,
      dfGetCol? ⟨3, [("c" ++ "." ++ "breached",
          [JValue.bool true, JValue.null, JValue.bool true])]⟩
          ("c" ++ "." ++ "breached") = some colVals ∧
      colVals[1]? = some JValue.null :=
  c4_null_fallback
    ⟨3, [("c",
      [JValue.arr [JValue.obj [("breached", JValue.bool false)],
          JValue.obj [("breached", JValue.bool true)]],
       JValue.arr [],
       JValue.arr [JValue.obj [("breached", JValue.bool false)],
          JValue.obj [("breached", JValue.bool true)]]])]⟩
    "c" ["breached"] true
    ⟨3, [("c" ++ "." ++ "breached",
        [JValue.bool true, JValue.null, JValue.bool true])]⟩
    [JValue.arr [JValue.obj [("breached", JValue.bool false)],
        JValue.obj [("breached", JValue.bool true)]],
     JValue.arr [],
     JValue.arr [JValue.obj [("breached", JValue.bool false)],
        JValue.obj [("breached", JValue.bool true)]]]
    1 (JValue.arr []) "breached"
    (by rfl) (by decide) (by rfl) (by rfl)
    (by intro e es hveq; simp at hveq)
    (by simp)
    (by intro p hp; rcases List.mem_singleton.mp hp with rfl; decide)
